import Mathlib

/-!
Verification of the opsml card-registry core against its specification.

The development shallowly embeds the registry code:

* semantic-version values, ordering, sorting and increment
  (`opsml/registry/sql/registry_base.py`, `opsml/registry/sql/base/server.py`,
  python-semver bump semantics);
* the record store and registry orchestration (`register_card`, `load_card`,
  `list_cards`, `set_version`, `_sort_by_version`, `_get_versions_from_db`);
* the card artifact saver family (`opsml/registry/cards/card_saver.py`);
* the card loader (`opsml/registry/cards/card_loader.py`);
* the ModelCard sample reducer (`opsml/registry/cards/model.py`).

Helpers that live in repository modules outside the sources at hand
(`opsml/registry/sql/semver.py`, the query engine, the storage client) are
modelled from the specification; their doc comments say so explicitly.
-/

/-! ## Generic boolean lexicographic order on lists

Used for pre-release identifier comparison (semver precedence rule 4) and for
character-wise string comparison of alphanumeric identifiers. -/

/-- Lexicographic strict order on lists from a strict order on elements.
The empty list sorts below any non-empty list (a shorter pre-release list has
lower precedence when it is a prefix of the longer one). -/
def lexLt {α : Type} [DecidableEq α] (lt : α → α → Bool) : List α → List α → Bool
  | _, [] => false
  | [], _ :: _ => true
  | a :: as, b :: bs => if lt a b then true else if a = b then lexLt lt as bs else false

theorem lexLt_irrefl {α : Type} [DecidableEq α] (lt : α → α → Bool)
    (hirr : ∀ a, lt a a = false) : ∀ l, lexLt lt l l = false := by
  intro l
  induction l with
  | nil => rfl
  | cons a as ih => simp [lexLt, hirr a, ih]

theorem lexLt_trans {α : Type} [DecidableEq α] (lt : α → α → Bool)
    (htr : ∀ a b c, lt a b = true → lt b c = true → lt a c = true) :
    ∀ l₁ l₂ l₃, lexLt lt l₁ l₂ = true → lexLt lt l₂ l₃ = true → lexLt lt l₁ l₃ = true := by
  intro l₁
  induction l₁ with
  | nil =>
    intro l₂ l₃ h12 h23
    cases l₂ with
    | nil => cases l₃ <;> simp_all [lexLt]
    | cons b bs => cases l₃ <;> simp_all [lexLt]
  | cons a as ih =>
    intro l₂ l₃ h12 h23
    cases l₂ with
    | nil => simp [lexLt] at h12
    | cons b bs =>
      cases l₃ with
      | nil => simp [lexLt] at h23
      | cons c cs =>
        simp only [lexLt] at h12 h23 ⊢
        by_cases hab : lt a b = true
        · by_cases hbc : lt b c = true
          · simp [htr a b c hab hbc]
          · simp only [hbc, if_neg, Bool.false_eq_true, if_false] at h23
            by_cases hbceq : b = c
            · subst hbceq; simp [hab]
            · simp [hbceq] at h23
        · simp only [hab, Bool.false_eq_true, if_false] at h12
          by_cases habeq : a = b
          · subst habeq
            simp only [if_pos rfl] at h12
            by_cases hbc : lt a c = true
            · simp [hbc]
            · simp only [hbc, Bool.false_eq_true, if_false] at h23 ⊢
              by_cases hbceq : a = c
              · subst hbceq
                simp only [if_pos rfl] at h23 ⊢
                exact ih bs cs h12 h23
              · simp [hbceq] at h23
          · simp [habeq] at h12

theorem lexLt_conn {α : Type} [DecidableEq α] (lt : α → α → Bool)
    (hconn : ∀ a b, lt a b = false → lt b a = false → a = b) :
    ∀ l₁ l₂, lexLt lt l₁ l₂ = false → lexLt lt l₂ l₁ = false → l₁ = l₂ := by
  intro l₁
  induction l₁ with
  | nil =>
    intro l₂ h12 h21
    cases l₂ with
    | nil => rfl
    | cons b bs => simp [lexLt] at h12
  | cons a as ih =>
    intro l₂ h12 h21
    cases l₂ with
    | nil => simp [lexLt] at h21
    | cons b bs =>
      simp only [lexLt] at h12 h21
      by_cases hab : lt a b = true
      · simp [hab] at h12
      · by_cases hba : lt b a = true
        · simp [hba] at h21
        · have heq : a = b :=
            hconn a b (Bool.eq_false_iff.mpr hab) (Bool.eq_false_iff.mpr hba)
          subst heq
          simp only [Bool.eq_false_iff.mpr hab, Bool.false_eq_true, if_false, if_pos rfl]
            at h12 h21
          rw [ih bs h12 h21]

/-! ## Semantic versions

`SemVer` embeds a parsed semantic version as stored in registry records: the
numeric triple plus the pre-release identifier list (the build tag never takes
part in precedence and is omitted).  A pre-release identifier is either a
numeric identifier or an alphanumeric one. -/

/-- A semver pre-release identifier: numeric identifiers compare numerically
and sort below alphanumeric identifiers, which compare character-wise. -/
inductive PreId where
  | num (n : Nat)
  | str (s : String)
deriving DecidableEq, Repr

/-- Character-wise strict comparison of strings by code point, as Python
compares the alphanumeric identifiers of a pre-release tag. -/
def strLt (a b : String) : Bool :=
  lexLt (fun c d : Char => decide (c < d)) a.data b.data

/-- Strict order on pre-release identifiers (semver precedence rule 4):
numeric identifiers compare numerically and always have lower precedence than
alphanumeric identifiers; alphanumeric identifiers compare lexically. -/
def preIdLt : PreId → PreId → Bool
  | .num a, .num b => decide (a < b)
  | .num _, .str _ => true
  | .str _, .num _ => false
  | .str a, .str b => strLt a b

/-- A parsed semantic version: numeric triple plus pre-release identifiers.
An empty `pre` is a final release. -/
structure SemVer where
  major : Nat
  minor : Nat
  patch : Nat
  pre : List PreId
deriving DecidableEq, Repr

/-- Pre-release field comparison used when the numeric triples are equal:
a final release (empty list) outranks every pre-release of the same triple,
and two pre-releases compare lexicographically. -/
def prePartLt : List PreId → List PreId → Bool
  | [], _ => false
  | _ :: _, [] => true
  | a :: as, b :: bs => lexLt preIdLt (a :: as) (b :: bs)

/-- Strict semver precedence: compare major, minor, patch numerically, and
break ties on the pre-release field (pre-release sorts below its release). -/
def semverLt (a b : SemVer) : Bool :=
  if a.major ≠ b.major then decide (a.major < b.major)
  else if a.minor ≠ b.minor then decide (a.minor < b.minor)
  else if a.patch ≠ b.patch then decide (a.patch < b.patch)
  else prePartLt a.pre b.pre

theorem strLt_irrefl (a : String) : strLt a a = false :=
  lexLt_irrefl _ (fun c => by simp) a.data

theorem strLt_trans {a b c : String} (h1 : strLt a b = true) (h2 : strLt b c = true) :
    strLt a c = true :=
  lexLt_trans _ (fun x y z hxy hyz => by
    simp only [decide_eq_true_eq] at hxy hyz ⊢; exact lt_trans hxy hyz) _ _ _ h1 h2

theorem strLt_conn {a b : String} (h1 : strLt a b = false) (h2 : strLt b a = false) :
    a = b := by
  refine String.ext (lexLt_conn _ (fun x y hxy hyx => ?_) _ _ h1 h2)
  simp only [decide_eq_false_iff_not, not_lt] at hxy hyx
  exact le_antisymm hyx hxy

theorem preIdLt_irrefl (a : PreId) : preIdLt a a = false := by
  cases a with
  | num n => simp [preIdLt]
  | str s => simpa [preIdLt] using strLt_irrefl s

theorem preIdLt_trans {a b c : PreId} (h1 : preIdLt a b = true) (h2 : preIdLt b c = true) :
    preIdLt a c = true := by
  cases a <;> cases b <;> cases c <;> simp_all [preIdLt]
  · omega
  · exact strLt_trans h1 h2

theorem preIdLt_conn {a b : PreId} (h1 : preIdLt a b = false) (h2 : preIdLt b a = false) :
    a = b := by
  cases a <;> cases b <;> simp_all [preIdLt]
  · omega
  · exact strLt_conn h1 h2

theorem prePartLt_irrefl (l : List PreId) : prePartLt l l = false := by
  cases l with
  | nil => rfl
  | cons a as => simpa [prePartLt] using lexLt_irrefl preIdLt preIdLt_irrefl (a :: as)

theorem prePartLt_trans {l₁ l₂ l₃ : List PreId} (h1 : prePartLt l₁ l₂ = true)
    (h2 : prePartLt l₂ l₃ = true) : prePartLt l₁ l₃ = true := by
  cases l₁ with
  | nil => simp [prePartLt] at h1
  | cons a as =>
    cases l₃ with
    | nil => simp [prePartLt]
    | cons c cs =>
      cases l₂ with
      | nil => simp [prePartLt] at h2
      | cons b bs =>
        simp only [prePartLt] at h1 h2 ⊢
        exact lexLt_trans preIdLt (fun x y z => preIdLt_trans) _ _ _ h1 h2

theorem prePartLt_conn {l₁ l₂ : List PreId} (h1 : prePartLt l₁ l₂ = false)
    (h2 : prePartLt l₂ l₁ = false) : l₁ = l₂ := by
  cases l₁ with
  | nil =>
    cases l₂ with
    | nil => rfl
    | cons b bs => simp [prePartLt] at h2
  | cons a as =>
    cases l₂ with
    | nil => simp [prePartLt] at h1
    | cons b bs =>
      simp only [prePartLt] at h1 h2
      exact lexLt_conn preIdLt (fun x y => preIdLt_conn) _ _ h1 h2

/-- Unfolded characterisation of `semverLt` as a proposition. -/
theorem semverLt_iff {a b : SemVer} :
    semverLt a b = true ↔
      a.major < b.major ∨ (a.major = b.major ∧
        (a.minor < b.minor ∨ (a.minor = b.minor ∧
          (a.patch < b.patch ∨ (a.patch = b.patch ∧ prePartLt a.pre b.pre = true))))) := by
  unfold semverLt
  split_ifs with h1 h2 h3 <;> simp_all <;> omega

theorem semverLt_irrefl (a : SemVer) : semverLt a a = false := by
  cases h : semverLt a a
  · rfl
  · rw [semverLt_iff] at h
    rcases h with h | ⟨-, h | ⟨-, h | ⟨-, h⟩⟩⟩ <;>
      first | omega | exact absurd h (by simp [prePartLt_irrefl])

theorem semverLt_trans {a b c : SemVer} (h1 : semverLt a b = true)
    (h2 : semverLt b c = true) : semverLt a c = true := by
  rw [semverLt_iff] at h1 h2 ⊢
  rcases h1 with h1 | ⟨e1, h1 | ⟨e1m, h1 | ⟨e1p, h1⟩⟩⟩ <;>
    rcases h2 with h2 | ⟨e2, h2 | ⟨e2m, h2 | ⟨e2p, h2⟩⟩⟩ <;>
      first
        | (left; omega)
        | (right; refine ⟨by omega, ?_⟩;
            first
              | (left; omega)
              | (right; refine ⟨by omega, ?_⟩;
                  first
                    | (left; omega)
                    | (right; exact ⟨by omega, prePartLt_trans h1 h2⟩)))

theorem semverLt_conn {a b : SemVer} (h1 : semverLt a b = false)
    (h2 : semverLt b a = false) : a = b := by
  have hmaj : a.major = b.major := by
    by_contra hne
    rcases Nat.lt_or_ge a.major b.major with h | h
    · exact absurd (semverLt_iff.mpr (Or.inl h)) (by simp [h1])
    · have : b.major < a.major := Nat.lt_of_le_of_ne h (fun e => hne e.symm)
      exact absurd (semverLt_iff.mpr (Or.inl this)) (by simp [h2])
  have hmin : a.minor = b.minor := by
    by_contra hne
    rcases Nat.lt_or_ge a.minor b.minor with h | h
    · exact absurd (semverLt_iff.mpr (Or.inr ⟨hmaj, Or.inl h⟩)) (by simp [h1])
    · have : b.minor < a.minor := Nat.lt_of_le_of_ne h (fun e => hne e.symm)
      exact absurd (semverLt_iff.mpr (Or.inr ⟨hmaj.symm, Or.inl this⟩)) (by simp [h2])
  have hpat : a.patch = b.patch := by
    by_contra hne
    rcases Nat.lt_or_ge a.patch b.patch with h | h
    · exact absurd (semverLt_iff.mpr (Or.inr ⟨hmaj, Or.inr ⟨hmin, Or.inl h⟩⟩)) (by simp [h1])
    · have : b.patch < a.patch := Nat.lt_of_le_of_ne h (fun e => hne e.symm)
      exact absurd (semverLt_iff.mpr (Or.inr ⟨hmaj.symm, Or.inr ⟨hmin.symm, Or.inl this⟩⟩))
        (by simp [h2])
  have hpre : a.pre = b.pre := by
    refine prePartLt_conn ?_ ?_
    · cases hp : prePartLt a.pre b.pre
      · rfl
      · exact absurd
          (semverLt_iff.mpr (Or.inr ⟨hmaj, Or.inr ⟨hmin, Or.inr ⟨hpat, hp⟩⟩⟩)) (by simp [h1])
    · cases hp : prePartLt b.pre a.pre
      · rfl
      · exact absurd
          (semverLt_iff.mpr
            (Or.inr ⟨hmaj.symm, Or.inr ⟨hmin.symm, Or.inr ⟨hpat.symm, hp⟩⟩⟩)) (by simp [h2])
  cases a; cases b; simp_all

theorem semverLt_asymm {a b : SemVer} (h : semverLt a b = true) : semverLt b a = false := by
  cases hba : semverLt b a
  · rfl
  · have := semverLt_trans h hba
    rw [semverLt_irrefl] at this
    exact absurd this (by simp)

theorem semverLt_neg_trans {a b c : SemVer} (h1 : semverLt a b = false)
    (h2 : semverLt b c = false) : semverLt a c = false := by
  cases hac : semverLt a c
  · rfl
  · exfalso
    cases hba : semverLt b a with
    | true =>
      have := semverLt_trans hba hac
      simp [this] at h2
    | false =>
      have : a = b := semverLt_conn h1 hba
      subst this
      simp [hac] at h2

/-! ## Descending semver sort

`opsml.registry.sql.semver.sort_semvers` is imported by the registry but its
module is not among the sources at hand; it is modelled from the spec as a
sort by semver precedence in descending order (spec section 4.5: "results are
always returned sorted by resolved semver descending"; section 4.1 gives the
ordering law).  The sort is written generically over a key so the same
definition sorts bare versions and full records. -/

/-- Insert one element into a list that is already sorted in descending order
of `key`. -/
def insertDesc {β : Type} (key : β → SemVer) (x : β) : List β → List β
  | [] => [x]
  | y :: ys => if semverLt (key x) (key y) then y :: insertDesc key x ys else x :: y :: ys

/-- Insertion sort in descending semver order of `key`. -/
def sortDesc {β : Type} (key : β → SemVer) : List β → List β
  | [] => []
  | x :: xs => insertDesc key x (sortDesc key xs)

/-- Modelled from the spec: `sort_semvers` from `opsml/registry/sql/semver.py`
(not among the sources at hand) sorts a list of versions in descending semver
precedence; the Python helper sorts its argument in place, modelled here as a
function returning the sorted list. -/
def sortSemvers (versions : List SemVer) : List SemVer :=
  sortDesc id versions

theorem insertDesc_perm {β : Type} (key : β → SemVer) (x : β) (l : List β) :
    (insertDesc key x l).Perm (x :: l) := by
  induction l with
  | nil => simp [insertDesc]
  | cons y ys ih =>
    simp only [insertDesc]
    split_ifs
    · exact ((ih.cons y).trans (List.Perm.swap x y ys))
    · exact List.Perm.refl _

theorem sortDesc_perm {β : Type} (key : β → SemVer) (l : List β) :
    (sortDesc key l).Perm l := by
  induction l with
  | nil => simp [sortDesc]
  | cons x xs ih => exact (insertDesc_perm key x (sortDesc key xs)).trans (ih.cons x)

/-- The sorted output is pairwise descending: any earlier element is not
semver-smaller than any later element. -/
theorem sortDesc_pairwise {β : Type} (key : β → SemVer) (l : List β) :
    (sortDesc key l).Pairwise (fun a b => semverLt (key a) (key b) = false) := by
  induction l with
  | nil => simp [sortDesc]
  | cons x xs ih =>
    simp only [sortDesc]
    generalize hs : sortDesc key xs = s at ih
    clear hs
    induction s with
    | nil => simp [insertDesc]
    | cons y ys ihy =>
      rcases List.pairwise_cons.mp ih with ⟨hy, hys⟩
      simp only [insertDesc]
      split_ifs with hxy
    
      · refine List.pairwise_cons.mpr ⟨?_, ihy hys⟩
        intro z hz
        rcases List.mem_cons.mp ((insertDesc_perm key x ys).mem_iff.mp hz) with hzx | hzys
        · subst hzx; exact semverLt_asymm hxy
        · exact hy z hzys
      · refine List.pairwise_cons.mpr ⟨?_, ih⟩
        intro z hz
        rcases List.mem_cons.mp hz with hzy | hzys
        · subst hzy; simpa using hxy
        · exact semverLt_neg_trans (by simpa using hxy) (hy z hzys)

/-- The head of the descending sort is a maximum: it is not semver-smaller
than any member of the input list. -/
theorem sortDesc_head_max {β : Type} (key : β → SemVer) (l : List β) (h : β) (t : List β)
    (hs : sortDesc key l = h :: t) :
    h ∈ l ∧ ∀ v ∈ l, semverLt (key h) (key v) = false := by
  have hperm := sortDesc_perm key l
  rw [hs] at hperm
  constructor
  · exact hperm.mem_iff.mp (List.mem_cons_self h t)
  · intro v hv
    rcases List.mem_cons.mp (hperm.symm.mem_iff.mp hv) with hvh | hvt
    · subst hvh; exact semverLt_irrefl _
    · have hp := sortDesc_pairwise key l
      rw [hs] at hp
      exact List.rel_of_pairwise_cons hp hvt

/-! ## Version increment and `set_version`

`SQLRegistryBase._increment_version` (`opsml/registry/sql/registry_base.py`
lines 95-119) delegates to the external python-semver library:
`bump_major` gives `(major+1, 0, 0)`, `bump_minor` gives `(major, minor+1, 0)`,
`bump_patch` gives `(major, minor, patch+1)`, all three clearing the
pre-release and build tags. -/

/-- Embeds `VersionType` from `opsml/registry/sql/registry_base.py` lines 39-42. -/
inductive VersionType where
  | major
  | minor
  | patch
deriving DecidableEq, Repr

/-- Embeds `SQLRegistryBase._increment_version`: bump the requested component with
python-semver semantics (lower components reset, pre-release dropped). -/
def incrementVersion (v : SemVer) : VersionType → SemVer
  | .major => ⟨v.major + 1, 0, 0, []⟩
  | .minor => ⟨v.major, v.minor + 1, 0, []⟩
  | .patch => ⟨v.major, v.minor, v.patch + 1, []⟩

/-- Embeds `ServerRegistry.set_version` (`opsml/registry/sql/registry_base.py` lines
322-354): with no existing versions for the (name, team) pair the result is
`1.0.0`; otherwise the existing versions are sorted descending in place and
the first (the maximum) is bumped. -/
def setVersion (versions : List SemVer) (versionType : VersionType) : SemVer :=
  match sortSemvers versions with
  | [] => ⟨1, 0, 0, []⟩
  | top :: _ => incrementVersion top versionType

/-- A bump of a version that dominates `v` is strictly above `v`. -/
theorem semverLt_incrementVersion {top v : SemVer} (h : semverLt top v = false)
    (vt : VersionType) : semverLt v (incrementVersion top vt) = true := by
  have hle : v.major < top.major ∨ (v.major = top.major ∧
      (v.minor < top.minor ∨ (v.minor = top.minor ∧ v.patch ≤ top.patch))) := by
    by_contra hcon
    push_neg at hcon
    obtain ⟨hc1, hc2⟩ := hcon
    have : semverLt top v = true := by
      rw [semverLt_iff]
      rcases Nat.eq_or_lt_of_le hc1 with heq | hlt

      · obtain ⟨hd1, hd2⟩ := hc2 heq.symm
        rcases Nat.eq_or_lt_of_le hd1 with heq2 | hlt2
        · exact Or.inr ⟨heq, Or.inr ⟨heq2, Or.inl (hd2 heq2.symm)⟩⟩
        · exact Or.inr ⟨heq, Or.inl hlt2⟩
      · exact Or.inl hlt
    simp [this] at h
  rw [semverLt_iff]
  cases vt with
  | major =>
    simp only [incrementVersion]
    left
    rcases hle with h | ⟨h, -⟩ <;> omega
  | minor =>
    simp only [incrementVersion]
    rcases hle with h | ⟨heq, h | ⟨heq2, h⟩⟩
    · left; omega
    · right; exact ⟨heq, Or.inl (by omega)⟩
    · right; exact ⟨heq, Or.inl (by omega)⟩
  | patch =>
    simp only [incrementVersion]
    rcases hle with h | ⟨heq, h | ⟨heq2, h⟩⟩
    · left; omega
    · right; exact ⟨heq, Or.inl (by omega)⟩
    · right; exact ⟨heq, Or.inr ⟨heq2, Or.inl (by omega)⟩⟩

/-! ## Registry records and the record store -/

/-- A metadata row of a card registry table: the fields of the stored record
that version resolution, sorting and listing read (`uid`, `name`, `team`,
`version`). -/
structure RegRecord where
  uid : String
  name : String
  team : String
  version : SemVer
deriving DecidableEq, Repr

/-- Error taxonomy of the registry layer, as surfaced by the embedded
operations.  `notFoundError` is included to state claims that compare the
code's behaviour against the taxonomy of the spec; the embedded code itself
never produces it. -/
inductive RegErr where
  | typeMismatch
  | duplicateRegistration
  | ownershipConflict
  | artifactSaveError (msg : String)
  | indexError
  | notFoundError
deriving DecidableEq, Repr

/-! ## Claim C2: `set_version` -/

/-- C2: `ServerRegistry.set_version` returns `1.0.0` when no versions exist
for the (name, team) pair, and otherwise a version strictly greater (under
semver precedence) than every existing version, for all three version
types. -/
theorem setVersion_fresh_and_monotone (versions : List SemVer) (vt : VersionType) :
    setVersion [] vt = ⟨1, 0, 0, []⟩ ∧
      (versions ≠ [] → ∀ v ∈ versions, semverLt v (setVersion versions vt) = true) := by
  constructor
  · cases vt <;> rfl
  · intro hne v hv
    unfold setVersion
    cases hs : sortSemvers versions with
    | nil =>
      exfalso
      have := (sortDesc_perm id versions).length_eq
      rw [show sortDesc id versions = sortSemvers versions from rfl, hs] at this
      simp at this
      exact hne (List.length_eq_zero.mp this.symm)
    | cons top rest =>
      have hmax := sortDesc_head_max id versions top rest hs
      exact semverLt_incrementVersion (hmax.2 v hv) vt

/-- Witness for C2 at a concrete history: versions `1.0.0`, `1.1.0-rc.1`,
`1.1.0`, `2.0.0-alpha` with a minor bump. -/
theorem setVersion_fresh_and_monotone_witness :
    ([⟨1, 0, 0, []⟩, ⟨1, 1, 0, [.str "rc", .num 1]⟩, ⟨1, 1, 0, []⟩,
        ⟨2, 0, 0, [.str "alpha"]⟩] ≠ ([] : List SemVer)) ∧
      setVersion [] .minor = ⟨1, 0, 0, []⟩ ∧
      ∀ v ∈ [⟨1, 0, 0, []⟩, ⟨1, 1, 0, [.str "rc", .num 1]⟩, ⟨1, 1, 0, []⟩,
          ⟨2, 0, 0, [.str "alpha"]⟩],
        semverLt v
          (setVersion [⟨1, 0, 0, []⟩, ⟨1, 1, 0, [.str "rc", .num 1]⟩, ⟨1, 1, 0, []⟩,
            ⟨2, 0, 0, [.str "alpha"]⟩] .minor) = true :=
  ⟨by decide,
    (setVersion_fresh_and_monotone [] .minor).1,
    (setVersion_fresh_and_monotone
      [⟨1, 0, 0, []⟩, ⟨1, 1, 0, [.str "rc", .num 1]⟩, ⟨1, 1, 0, []⟩,
        ⟨2, 0, 0, [.str "alpha"]⟩] .minor).2 (by decide)⟩

/-! ## Claim C3: ownership check in `_get_versions_from_db`

`ServerRegistry._get_versions_from_db` (`opsml/registry/sql/base/server.py`
lines 51-72) queries all version records by `name` only (the query engine
lives outside the sources at hand and is modelled from the spec record-store
contract: `query(table, filters) -> sequence of mapping`, here filtered on the
exact name, order unspecified).  The function then compares the team of the
FIRST returned record against the caller's team and raises when they
differ. -/

/-- Embeds `ServerRegistry._get_versions_from_db`, taking the query result for the
name as input: empty results give an empty version list; otherwise the first
record's team is checked against the caller's team and the versions are
returned sorted descending. -/
def getVersionsFromDb (results : List RegRecord) (team : String) :
    Except RegErr (List SemVer) :=
  match results with
  | [] => .ok []
  | r :: rest =>
    if r.team = team then .ok (sortSemvers ((r :: rest).map (fun x => x.version)))
    else .error .ownershipConflict

/-- Counterexample to C3 as stated: with query results spanning two teams for
the same name and the FIRST record owned by the caller's team, the call
succeeds even though another record belongs to a different team — no
ownership-conflict error is raised. -/
theorem getVersionsFromDb_any_team_counterexample :
    (getVersionsFromDb
        [⟨"u1", "m", "team-a", ⟨1, 0, 0, []⟩⟩, ⟨"u2", "m", "team-b", ⟨2, 0, 0, []⟩⟩]
        "team-a").isOk = true ∧
      ([⟨"u1", "m", "team-a", ⟨1, 0, 0, []⟩⟩,
          ⟨"u2", "m", "team-b", ⟨2, 0, 0, []⟩⟩] : List RegRecord).any
        (fun r => r.team ≠ "team-a") = true := by
  constructor <;> rfl

/-- C3 amended: `_get_versions_from_db` fails with the ownership-conflict
error exactly when the result set is non-empty and its first record's team
differs from the caller's team; records beyond the first are not checked.
When the first record's team matches, the sorted versions are returned. -/
theorem getVersionsFromDb_first_team_check (results : List RegRecord) (team : String) :
    (results = [] → getVersionsFromDb results team = .ok []) ∧
      (∀ r rest, results = r :: rest →
        (r.team ≠ team → getVersionsFromDb results team = .error .ownershipConflict) ∧
        (r.team = team →
          getVersionsFromDb results team =
            .ok (sortSemvers (results.map (fun x => x.version))))) := by
  constructor
  · intro h; subst h; rfl
  · intro r rest h
    subst h
    constructor
    · intro hne
      simp [getVersionsFromDb, hne]
    · intro heq
      simp [getVersionsFromDb, heq]

/-- Witness for the amended C3 at concrete inputs: a mismatching first team
raises the ownership conflict, a matching one returns the sorted versions. -/
theorem getVersionsFromDb_first_team_check_witness :
    getVersionsFromDb [⟨"u1", "m", "team-b", ⟨1, 0, 0, []⟩⟩] "team-a" =
        .error .ownershipConflict ∧
      getVersionsFromDb [⟨"u1", "m", "team-a", ⟨1, 0, 0, []⟩⟩] "team-a" =
        .ok [⟨1, 0, 0, []⟩] :=
  ⟨((getVersionsFromDb_first_team_check
        [⟨"u1", "m", "team-b", ⟨1, 0, 0, []⟩⟩] "team-a").2
      ⟨"u1", "m", "team-b", ⟨1, 0, 0, []⟩⟩ [] rfl).1 (by decide),
    by
      have := ((getVersionsFromDb_first_team_check
          [⟨"u1", "m", "team-a", ⟨1, 0, 0, []⟩⟩] "team-a").2
        ⟨"u1", "m", "team-a", ⟨1, 0, 0, []⟩⟩ [] rfl).2 rfl
      simpa [sortSemvers, sortDesc, insertDesc] using this⟩

/-! ## Claim C10: `_sort_by_version`

`SQLRegistryBase._sort_by_version` (`opsml/registry/sql/registry_base.py`
lines 260-270) collects the version strings, sorts them in place with
`sort_semvers`, and then rebuilds the record list by scanning, for each
version in the sorted list, ALL records whose version equals it. -/

/-- Embeds `SQLRegistryBase._sort_by_version`: the sorted version list drives a
nested scan over the records, appending every record whose version matches
the current version. -/
def sortByVersion (records : List RegRecord) : List RegRecord :=
  let versions := sortSemvers (records.map (fun r => r.version))
  versions.flatMap (fun v => records.filter (fun r => decide (r.version = v)))

/-- Counterexample to C10 as stated: two records sharing the version string
`1.0.0` are each emitted twice — the output has four entries and is not a
permutation of the two-element input. -/
theorem sortByVersion_duplicates_counterexample :
    (sortByVersion
        [⟨"a", "m", "t", ⟨1, 0, 0, []⟩⟩, ⟨"b", "m", "t", ⟨1, 0, 0, []⟩⟩]).length = 4 ∧
      ¬ (sortByVersion
          [⟨"a", "m", "t", ⟨1, 0, 0, []⟩⟩, ⟨"b", "m", "t", ⟨1, 0, 0, []⟩⟩]).Perm
        [⟨"a", "m", "t", ⟨1, 0, 0, []⟩⟩, ⟨"b", "m", "t", ⟨1, 0, 0, []⟩⟩] := by
  constructor
  · rfl
  · intro h
    have h2 := h.length_eq
    have h4 : (sortByVersion
        [⟨"a", "m", "t", ⟨1, 0, 0, []⟩⟩, ⟨"b", "m", "t", ⟨1, 0, 0, []⟩⟩]).length = 4 := rfl
    rw [h4] at h2
    simp at h2

/-- Helper: when every version in `vs` has exactly the records of `records`
with that version, and the versions of `records` are pairwise distinct,
binding the per-version record blocks over the full (unsorted) version list
returns the records unchanged. -/
theorem flatMap_filter_eq_self (records : List RegRecord)
    (hnd : (records.map (fun r => r.version)).Nodup) :
    (records.map (fun r => r.version)).flatMap
        (fun v => records.filter (fun r => decide (r.version = v))) = records := by
  induction records with
  | nil => rfl
  | cons r rs ih =>
    simp only [List.map_cons, List.nodup_cons] at hnd
    obtain ⟨hnotin, hnd2⟩ := hnd
    have hhead : (r :: rs).filter (fun x => decide (x.version = r.version)) = [r] := by
      have hnil : rs.filter (fun x => decide (x.version = r.version)) = [] := by
        rw [List.filter_eq_nil_iff]
        intro x hx
        simp only [decide_eq_true_eq]
        intro hvx
        exact hnotin (hvx ▸ List.mem_map_of_mem (fun y => y.version) hx)
      simp [List.filter_cons, hnil]
    have htail : ∀ v ∈ rs.map (fun x => x.version),
        (r :: rs).filter (fun x => decide (x.version = v)) =
          rs.filter (fun x => decide (x.version = v)) := by
      intro v hv
      simp only [List.filter_cons, decide_eq_true_eq]
      rw [if_neg]
      intro hrv
      exact hnotin (hrv ▸ hv)
    calc (r.version :: rs.map (fun x => x.version)).flatMap
          (fun v => (r :: rs).filter (fun x => decide (x.version = v)))
        = ((r :: rs).filter (fun x => decide (x.version = r.version))) ++
            (rs.map (fun x => x.version)).flatMap
              (fun v => (r :: rs).filter (fun x => decide (x.version = v))) := by
          simp [List.flatMap_cons]
      _ = [r] ++ (rs.map (fun x => x.version)).flatMap
              (fun v => rs.filter (fun x => decide (x.version = v))) := by
          rw [hhead, List.flatMap_congr htail]
      _ = r :: rs := by rw [ih hnd2]; rfl

/-- C10 amended: when the records' version strings are pairwise distinct,
`_sort_by_version` returns a permutation of its input; when two or more
records share a version string, each record whose version occurs k times is
emitted k times (see the counterexample). -/
theorem sortByVersion_perm_of_nodup (records : List RegRecord)
    (hnd : (records.map (fun r => r.version)).Nodup) :
    (sortByVersion records).Perm records := by
  unfold sortByVersion
  have hperm : (sortSemvers (records.map (fun r => r.version))).Perm
      (records.map (fun r => r.version)) := sortDesc_perm id _
  refine (hperm.flatMap_right
    (fun v => records.filter (fun r => decide (r.version = v)))).trans ?_
  rw [flatMap_filter_eq_self records hnd]

/-- Witness for the amended C10: three records with distinct versions come
back as a permutation (here: sorted descending). -/
theorem sortByVersion_perm_of_nodup_witness :
    (([⟨"a", "m", "t", ⟨1, 0, 0, []⟩⟩, ⟨"b", "m", "t", ⟨2, 0, 0, []⟩⟩,
        ⟨"c", "m", "t", ⟨1, 5, 3, []⟩⟩] : List RegRecord).map
          (fun r => r.version)).Nodup ∧
      (sortByVersion
        [⟨"a", "m", "t", ⟨1, 0, 0, []⟩⟩, ⟨"b", "m", "t", ⟨2, 0, 0, []⟩⟩,
          ⟨"c", "m", "t", ⟨1, 5, 3, []⟩⟩]).Perm
        [⟨"a", "m", "t", ⟨1, 0, 0, []⟩⟩, ⟨"b", "m", "t", ⟨2, 0, 0, []⟩⟩,
          ⟨"c", "m", "t", ⟨1, 5, 3, []⟩⟩] :=
  ⟨by decide,
    sortByVersion_perm_of_nodup
      [⟨"a", "m", "t", ⟨1, 0, 0, []⟩⟩, ⟨"b", "m", "t", ⟨2, 0, 0, []⟩⟩,
        ⟨"c", "m", "t", ⟨1, 5, 3, []⟩⟩] (by decide)⟩

/-! ## Claim C8: `list_cards` with a caret/tilde version query

`ServerRegistry.list_cards` (`opsml/registry/sql/base/server.py` lines
130-199).  The SQL query engine it delegates to
(`opsml/registry/sql/base/query_engine.py`) is not among the sources at hand
and is modelled from the spec record-store contract: `query(table, filters)`
returns the records matching the exact-name / exact-team / version-pattern
filters in insertion order, with the result-count limit applied by the
query. -/

/-- A version argument of `list_cards`: either an exact version or a caret /
tilde range pattern (the strings `"^M"` and `"~M.m"`).  Modelled from the
spec: a caret pattern matches all versions with the given major component, a
tilde pattern all versions with the given major and minor components. -/
inductive VersionQuery where
  | exact (v : SemVer)
  | caret (major : Nat)
  | tilde (major : Nat) (minor : Nat)
deriving DecidableEq, Repr

/-- The check `any(symbol in version for symbol in [SemVerSymbols.CARET,
SemVerSymbols.TILDE])` from `list_cards`: does the version string contain a
caret or tilde symbol? -/
def queryHasSymbol : VersionQuery → Bool
  | .exact _ => false
  | .caret _ => true
  | .tilde _ _ => true

/-- Does a stored version match the version argument? -/
def matchesQuery : VersionQuery → SemVer → Bool
  | .exact w, v => decide (v = w)
  | .caret m, v => decide (v.major = m)
  | .tilde m n, v => decide (v.major = m) && decide (v.minor = n)

/-- Modelled from the spec: `SemVerUtils.is_release_candidate` (in
`opsml/registry/sql/semver.py`, not among the sources at hand) — a version is
a release candidate exactly when it carries a pre-release tag. -/
def isReleaseCandidate (v : SemVer) : Bool :=
  !v.pre.isEmpty

/-- A result-count limit: `l[:limit]` with `limit` possibly absent. -/
def applyLimit {β : Type} : Option Nat → List β → List β
  | none, l => l
  | some n, l => l.take n

/-- Modelled from the spec: the query engine's
`get_records_from_table` — records matching the exact-name, exact-team and
version-pattern filters, in insertion order, with the limit applied by the
query itself (the engine receives `limit` as a query argument). -/
def getRecordsFromTable (table : List RegRecord) (name team : Option String)
    (version : Option VersionQuery) (limit : Option Nat) : List RegRecord :=
  applyLimit limit (table.filter (fun r =>
    (match name with | none => true | some n => decide (r.name = n)) &&
    (match team with | none => true | some t => decide (r.team = t)) &&
    (match version with | none => true | some q => matchesQuery q r.version)))

/-- Embeds `ServerRegistry.list_cards` (`opsml/registry/sql/base/server.py` lines
130-199): fetch records from the engine, sort by semver only when a name
filter is present, drop release candidates when requested, and return only
the top record for a caret/tilde version query.  Name and team are taken as
already-cleaned strings. -/
def listCards (table : List RegRecord) (name team : Option String)
    (version : Option VersionQuery) (ignoreReleaseCandidates : Bool)
    (limit : Option Nat) : List RegRecord :=
  let records := getRecordsFromTable table name team version limit
  let records := match name with
    | some _ => sortByVersion records
    | none => records
  match version with
  | some q =>
    let records := if ignoreReleaseCandidates then
        records.filter (fun r => !isReleaseCandidate r.version)
      else records
    if queryHasSymbol q then records.take 1 else records
  | none =>
    if ignoreReleaseCandidates then
      records.filter (fun r => !isReleaseCandidate r.version)
    else records

/-- Membership in `_sort_by_version` output coincides with membership in the
input (multiplicities can differ, see C10). -/
theorem mem_sortByVersion {x : RegRecord} {l : List RegRecord} :
    x ∈ sortByVersion l ↔ x ∈ l := by
  unfold sortByVersion
  constructor
  · intro hx
    rcases List.mem_flatMap.mp hx with ⟨v, -, hxf⟩
    exact (List.mem_filter.mp hxf).1
  · intro hx
    refine List.mem_flatMap.mpr ⟨x.version, ?_, ?_⟩
    · exact (sortDesc_perm id _).mem_iff.mpr (List.mem_map_of_mem (fun r => r.version) hx)
    · exact List.mem_filter.mpr ⟨hx, by simp⟩


/-- The output of `_sort_by_version` is pairwise descending on versions. -/
theorem sortByVersion_sorted (l : List RegRecord) :
    (sortByVersion l).Pairwise (fun a b => semverLt a.version b.version = false) := by
  have hdef : sortByVersion l =
      ((sortSemvers (l.map (fun r => r.version))).map
        (fun v => l.filter (fun r => decide (r.version = v)))).flatten := by
    rw [sortByVersion, List.flatMap_def]
  rw [hdef, List.pairwise_flatten]
  constructor
  · intro block hblock
    rcases List.mem_map.mp hblock with ⟨v, -, hv⟩
    subst hv
    refine List.pairwise_of_forall_mem_list ?_
    intro a ha b hb
    have hav : a.version = v := by simpa using (List.mem_filter.mp ha).2
    have hbv : b.version = v := by simpa using (List.mem_filter.mp hb).2
    rw [hav, hbv]
    exact semverLt_irrefl v
  · rw [List.pairwise_map]
    refine (sortDesc_pairwise id _).imp_of_mem ?_
    intro v w hv hw hvw a ha b hb
    have hav : a.version = v := by simpa using (List.mem_filter.mp ha).2
    have hbv : b.version = w := by simpa using (List.mem_filter.mp hb).2
    rw [hav, hbv]
    exact hvw

/-- The head of a filtered, pairwise-related list is related to every element
of the underlying list that passes the filter. -/
theorem filter_head_rel {α : Type} (R : α → α → Prop) (hrefl : ∀ a, R a a)
    (p : α → Bool) :
    ∀ (l : List α) (h : α) (t : List α), l.Pairwise R → l.filter p = h :: t →
      ∀ x ∈ l, p x = true → R h x := by
  intro l
  induction l with
  | nil => intro h t _ hf; simp at hf
  | cons a l' ih =>
    intro h t hp hf x hx hpx
    rcases List.pairwise_cons.mp hp with ⟨ha, hl'⟩
    rw [List.filter_cons] at hf
    by_cases hpa : p a = true
    · rw [if_pos hpa] at hf
      have hah : a = h := by injection hf
      subst hah
      rcases List.mem_cons.mp hx with hxa | hxl
      · subst hxa; exact hrefl x
      · exact ha x hxl
    · rw [if_neg hpa] at hf
      rcases List.mem_cons.mp hx with hxa | hxl
      · subst hxa; exact absurd hpx hpa
      · exact ih h t hl' hf x hxl hpx

/-- The record filter applied after sorting in `list_cards`: when
`ignore_release_candidates` is set, release candidates are dropped;
otherwise every record is kept. -/
def keepRecord (ignoreReleaseCandidates : Bool) (r : RegRecord) : Bool :=
  !ignoreReleaseCandidates || !isReleaseCandidate r.version

/-- Taking the head of the release-candidate-filtered `_sort_by_version`
output yields a record of the input that passes the filter and is maximal
(under semver precedence) among all input records passing the filter. -/
theorem take_one_filter_sortByVersion (base : List RegRecord) (p : RegRecord → Bool) :
    (base.filter p = [] → ((sortByVersion base).filter p).take 1 = []) ∧
    (∀ h t, ((sortByVersion base).filter p).take 1 = h :: t →
      t = [] ∧ h ∈ base ∧ p h = true ∧
        ∀ x ∈ base, p x = true → semverLt h.version x.version = false) ∧
    (base.filter p ≠ [] → ((sortByVersion base).filter p).take 1 ≠ []) := by
  refine ⟨?_, ?_, ?_⟩
  · intro hnil
    have : (sortByVersion base).filter p = [] := by
      rw [List.filter_eq_nil_iff] at hnil ⊢
      intro a ha
      exact hnil a (mem_sortByVersion.mp ha)
    rw [this]
    rfl
  · intro h t hres
    cases hf : (sortByVersion base).filter p with
    | nil => rw [hf] at hres; simp at hres
    | cons h0 t0 =>
      rw [hf] at hres
      simp only [List.take_succ_cons, List.take_zero] at hres
      have hh : h0 = h := by injection hres
      have ht : t = [] := by
        have := hres
        injection this with h1 h2
        exact h2.symm
      subst hh
      have hmem : h0 ∈ (sortByVersion base).filter p := hf ▸ List.mem_cons_self h0 t0
      rcases List.mem_filter.mp hmem with ⟨hmemsort, hph⟩
      refine ⟨ht, mem_sortByVersion.mp hmemsort, hph, ?_⟩
      intro x hx hpx
      exact filter_head_rel (fun a b => semverLt a.version b.version = false)
        (fun a => semverLt_irrefl a.version) p (sortByVersion base) h0 t0
        (sortByVersion_sorted base) hf x (mem_sortByVersion.mpr hx) hpx
  · intro hne
    cases hf : (sortByVersion base).filter p with
    | nil =>
      exfalso
      rcases List.exists_mem_of_ne_nil _ hne with ⟨a, ha⟩
      have hmem : a ∈ (sortByVersion base).filter p := by
        rcases List.mem_filter.mp ha with ⟨hab, hap⟩
        exact List.mem_filter.mpr ⟨mem_sortByVersion.mpr hab, hap⟩
      rw [hf] at hmem
      simp at hmem
    | cons h0 t0 => simp

/-- On a caret/tilde version query, `list_cards` is the head of the
release-candidate-filtered `_sort_by_version` output. -/
theorem listCards_eq_take_one (table : List RegRecord) (n : String) (team : Option String)
    (q : VersionQuery) (rc : Bool) (limit : Option Nat) (hq : queryHasSymbol q = true) :
    listCards table (some n) team (some q) rc limit =
      ((sortByVersion (getRecordsFromTable table (some n) team (some q) limit)).filter
        (keepRecord rc)).take 1 := by
  cases rc with
  | false =>
    have h1 : listCards table (some n) team (some q) false limit =
        if queryHasSymbol q then
          (sortByVersion (getRecordsFromTable table (some n) team (some q) limit)).take 1
        else sortByVersion (getRecordsFromTable table (some n) team (some q) limit) := rfl
    rw [h1, hq]
    have h2 : (sortByVersion (getRecordsFromTable table (some n) team (some q) limit)).filter
        (keepRecord false) =
          sortByVersion (getRecordsFromTable table (some n) team (some q) limit) :=
      List.filter_eq_self.mpr (fun a _ => rfl)
    rw [h2]
    rfl
  | true =>
    have h1 : listCards table (some n) team (some q) true limit =
        if queryHasSymbol q then
          ((sortByVersion (getRecordsFromTable table (some n) team (some q) limit)).filter
            (fun r => !isReleaseCandidate r.version)).take 1
        else (sortByVersion (getRecordsFromTable table (some n) team (some q) limit)).filter
          (fun r => !isReleaseCandidate r.version) := rfl
    rw [h1, hq]
    rfl

/-- Counterexample to C8 as stated: `list_cards` only sorts by semver when a
name filter is present.  With no name filter, insertion order `[1.0.0,
1.5.3]` and the caret query `^1`, the returned record is the `1.0.0` one even
though the `1.5.3` record also matches the pattern and is semver-greater. -/
theorem listCards_range_query_counterexample :
    listCards
        [⟨"u1", "m1", "t", ⟨1, 0, 0, []⟩⟩, ⟨"u2", "m2", "t", ⟨1, 5, 3, []⟩⟩]
        none none (some (.caret 1)) false none =
      [⟨"u1", "m1", "t", ⟨1, 0, 0, []⟩⟩] ∧
    matchesQuery (.caret 1) ⟨1, 5, 3, []⟩ = true ∧
    semverLt ⟨1, 0, 0, []⟩ ⟨1, 5, 3, []⟩ = true :=
  ⟨rfl, rfl, rfl⟩

/-- C8 amended: when a name filter is present and the version argument is a
caret or tilde pattern, `list_cards` returns at most one record; the record
returned comes from the engine's matching records, is maximal under semver
precedence among them (after release-candidate filtering when requested), and
is never a release candidate when `ignore_release_candidates` is set; the
result is empty exactly when no matching record survives the filters. -/
theorem listCards_range_query_top (table : List RegRecord) (n : String)
    (team : Option String) (q : VersionQuery) (rc : Bool) (limit : Option Nat)
    (hq : queryHasSymbol q = true) :
    ((getRecordsFromTable table (some n) team (some q) limit).filter (keepRecord rc) = [] →
      listCards table (some n) team (some q) rc limit = []) ∧
    (∀ h t, listCards table (some n) team (some q) rc limit = h :: t →
      t = [] ∧ h ∈ getRecordsFromTable table (some n) team (some q) limit ∧
        (rc = true → isReleaseCandidate h.version = false) ∧
        ∀ x ∈ getRecordsFromTable table (some n) team (some q) limit,
          keepRecord rc x = true → semverLt h.version x.version = false) ∧
    ((getRecordsFromTable table (some n) team (some q) limit).filter (keepRecord rc) ≠ [] →
      listCards table (some n) team (some q) rc limit ≠ []) := by
  have hcore := take_one_filter_sortByVersion
    (getRecordsFromTable table (some n) team (some q) limit) (keepRecord rc)
  rw [← listCards_eq_take_one table n team q rc limit hq] at hcore
  refine ⟨hcore.1, ?_, hcore.2.2⟩
  intro h t hres
  rcases hcore.2.1 h t hres with ⟨ht, hmem, hkeep, hmax⟩
  refine ⟨ht, hmem, ?_, hmax⟩
  intro hrc
  rw [hrc] at hkeep
  simpa [keepRecord] using hkeep

/-- Witness for the amended C8 at the spec's own example: versions `1.0.0`,
`1.2.0`, `1.5.3`, `2.0.0` under the query `^1` yield exactly the `1.5.3`
record, which dominates every matching record. -/
theorem listCards_range_query_top_witness :
    listCards
        [⟨"u1", "m", "t", ⟨1, 0, 0, []⟩⟩, ⟨"u2", "m", "t", ⟨1, 2, 0, []⟩⟩,
          ⟨"u3", "m", "t", ⟨1, 5, 3, []⟩⟩, ⟨"u4", "m", "t", ⟨2, 0, 0, []⟩⟩]
        (some "m") none (some (.caret 1)) false none =
      [⟨"u3", "m", "t", ⟨1, 5, 3, []⟩⟩] ∧
    queryHasSymbol (.caret 1) = true ∧
    (⟨"u3", "m", "t", ⟨1, 5, 3, []⟩⟩ : RegRecord) ∈
        getRecordsFromTable
          [⟨"u1", "m", "t", ⟨1, 0, 0, []⟩⟩, ⟨"u2", "m", "t", ⟨1, 2, 0, []⟩⟩,
            ⟨"u3", "m", "t", ⟨1, 5, 3, []⟩⟩, ⟨"u4", "m", "t", ⟨2, 0, 0, []⟩⟩]
          (some "m") none (some (.caret 1)) none ∧
      ∀ x ∈ getRecordsFromTable
          [⟨"u1", "m", "t", ⟨1, 0, 0, []⟩⟩, ⟨"u2", "m", "t", ⟨1, 2, 0, []⟩⟩,
            ⟨"u3", "m", "t", ⟨1, 5, 3, []⟩⟩, ⟨"u4", "m", "t", ⟨2, 0, 0, []⟩⟩]
          (some "m") none (some (.caret 1)) none,
        keepRecord false x = true →
          semverLt (⟨1, 5, 3, []⟩ : SemVer) x.version = false := by
  refine ⟨by decide, rfl, ?_⟩
  have h := (listCards_range_query_top
    [⟨"u1", "m", "t", ⟨1, 0, 0, []⟩⟩, ⟨"u2", "m", "t", ⟨1, 2, 0, []⟩⟩,
      ⟨"u3", "m", "t", ⟨1, 5, 3, []⟩⟩, ⟨"u4", "m", "t", ⟨2, 0, 0, []⟩⟩]
    "m" none (.caret 1) false none rfl).2.1
    ⟨"u3", "m", "t", ⟨1, 5, 3, []⟩⟩ [] (by decide)
  exact ⟨h.2.1, h.2.2.2⟩

/-! ## Claim C7: `load_card` with zero matching records

`SQLRegistryBase.load_card` (`opsml/registry/sql/registry_base.py` lines
272-299) resolves a single record through the older-generation
`ServerRegistry.list_cards` (same file, lines 417-468) with `limit=1` and
then indexes `record[0]`.  The query helper (`query_creator`) is modelled
from the spec record-store contract as an insertion-order filter on the
exact-name / exact-team / exact-uid / version-pattern filters; the
older-generation `list_cards` sorts every result by semver and slices with
the limit afterwards. -/

/-- Older-generation `ServerRegistry.list_cards`: filter, always sort by
semver, then return the top record for a caret/tilde query or the
limit-sliced result otherwise. -/
def listCardsOldGen (table : List RegRecord) (name team : Option String)
    (version : Option VersionQuery) (uid : Option String)
    (limit : Option Nat) : List RegRecord :=
  let records := table.filter (fun r =>
    (match name with | none => true | some v => decide (r.name = v)) &&
    (match team with | none => true | some v => decide (r.team = v)) &&
    (match version with | none => true | some q => matchesQuery q r.version) &&
    (match uid with | none => true | some v => decide (r.uid = v)))
  let sortedRecords := sortByVersion records
  match version with
  | some q => if queryHasSymbol q then sortedRecords.take 1 else applyLimit limit sortedRecords
  | none => applyLimit limit sortedRecords

/-- Embeds `SQLRegistryBase.load_card`: fetch with `limit=1` and index the first
element of the result list.  Indexing an empty Python list raises
`IndexError`, embedded as the `indexError` value; a non-empty result loads
the record. -/
def loadCard (table : List RegRecord) (name team : Option String)
    (version : Option VersionQuery) (uid : Option String) : Except RegErr RegRecord :=
  match listCardsOldGen table name team version uid (some 1) with
  | [] => .error .indexError
  | r :: _ => .ok r

/-- Counterexample to C7 as stated: on an empty table every filter matches
zero records and `load_card` fails with `IndexError` (from `record[0]` on an
empty list), not with `NotFoundError`. -/
theorem loadCard_empty_counterexample :
    loadCard [] (some "m") (some "t") none none = .error .indexError ∧
      loadCard [] (some "m") (some "t") none none ≠ .error .notFoundError :=
  ⟨rfl, by
    intro h
    rw [show loadCard [] (some "m") (some "t") none none = .error .indexError from rfl] at h
    injection h with h2
    exact RegErr.noConfusion h2⟩

/-- C7 amended: whenever the filters of `load_card` match zero records, the
call fails with `IndexError` — raised by `record[0]` on the empty result of
`list_cards` — and never with `NotFoundError`. -/
theorem loadCard_no_match_index_error (table : List RegRecord) (name team : Option String)
    (version : Option VersionQuery) (uid : Option String)
    (hempty : table.filter (fun r =>
      (match name with | none => true | some v => decide (r.name = v)) &&
      (match team with | none => true | some v => decide (r.team = v)) &&
      (match version with | none => true | some q => matchesQuery q r.version) &&
      (match uid with | none => true | some v => decide (r.uid = v))) = []) :
    loadCard table name team version uid = .error .indexError := by
  have hlist : listCardsOldGen table name team version uid (some 1) = [] := by
    unfold listCardsOldGen
    rw [hempty]
    have hsort : sortByVersion [] = [] := rfl
    cases version with
    | none => simp [hsort, applyLimit]
    | some q => cases hq : queryHasSymbol q <;> simp [hsort, applyLimit]
  unfold loadCard
  rw [hlist]

/-- Witness for the amended C7: a one-record table queried for a different
name matches nothing and surfaces `IndexError`. -/
theorem loadCard_no_match_index_error_witness :
    ([⟨"u1", "m", "t", ⟨1, 0, 0, []⟩⟩] : List RegRecord).filter (fun r =>
        (decide (r.name = "other") && true) && true && true) = [] ∧
      loadCard [⟨"u1", "m", "t", ⟨1, 0, 0, []⟩⟩] (some "other") none none none =
        .error .indexError :=
  ⟨by decide,
    loadCard_no_match_index_error [⟨"u1", "m", "t", ⟨1, 0, 0, []⟩⟩]
      (some "other") none none none (by decide)⟩

/-! ## Claim C1: orphan-safety of `register_card`

`SQLRegistryBase.register_card` and `_create_registry_record`
(`opsml/registry/sql/registry_base.py` lines 193-232): validate the card
type and uid, resolve version and uid, set the artifact storage spec, save
the artifacts via `save_card_artifacts`, and only then build the registry
record and call `add_and_commit`.  The artifact saver is a parameter of the
embedded operation: the claim is about the control flow of `register_card`
for an arbitrary saver outcome, not about a particular saver. -/

/-- A card variant tag (`DataCard`, `ModelCard`, ...). -/
inductive CardKind where
  | data
  | model
  | run
  | pipeline
  | project
  | audit
deriving DecidableEq, Repr

/-- The identity fields of an `ArtifactCard` that the registry layer reads
and writes: variant, name, team, optional uid and version. -/
structure RCard where
  kind : CardKind
  name : String
  team : String
  uid : Option String
  version : Option SemVer
deriving DecidableEq, Repr

/-- Registry state: the registry's table name and supported variant, the
record store rows as (table name, record) pairs, and the storage spec last
pushed onto the storage client. -/
structure RegistryState where
  tableName : String
  kind : CardKind
  store : List (String × RegRecord)
  storageSpec : Option String
deriving DecidableEq, Repr

/-- Embeds `check_uid`: does the record store hold a row with this uid in the given
table? -/
def checkUid (store : List (String × RegRecord)) (uid : String) (table : String) : Bool :=
  store.any (fun e => decide (e.1 = table) && decide (e.2.uid = uid))

/-- Python's `str(card.uid)`: `str(None)` is the string `"None"`. -/
def uidStr : Option String → String
  | some u => u
  | none => "None"

/-- Embeds `SQLRegistryBase._validate_card_type`: reject a card whose variant does
not match the registry, then reject a uid already present in the table. -/
def validateCardType (reg : RegistryState) (card : RCard) : Except RegErr Unit :=
  if card.kind ≠ reg.kind then .error .typeMismatch
  else if checkUid reg.store (uidStr card.uid) reg.tableName then
    .error .duplicateRegistration
  else .ok ()

/-- Rendering of a semver value back to its version string. -/
def renderPreId : PreId → String
  | .num n => toString n
  | .str s => s

/-- Rendering of a semver value back to its version string. -/
def renderSemVer (v : SemVer) : String :=
  toString v.major ++ "." ++ toString v.minor ++ "." ++ toString v.patch ++
    (match v.pre with
      | [] => ""
      | ids => "-" ++ String.intercalate "." (ids.map renderPreId))

/-- Embeds `SQLRegistryBase._set_card_uid_version`: resolve the next version from
the store rows of this table matching the card's name and team, then assign
a fresh uid only when the card has none.  The freshly generated uuid (an
effect in the source) is a parameter. -/
def setCardUidVersion (reg : RegistryState) (card : RCard) (vt : VersionType)
    (freshUid : String) : RCard :=
  let versions := (reg.store.filter (fun e =>
    decide (e.1 = reg.tableName) && decide (e.2.name = card.name) &&
      decide (e.2.team = card.team))).map (fun e => e.2.version)
  { card with
      version := some (setVersion versions vt)
      uid := some (match card.uid with | some u => u | none => freshUid) }

/-- Embeds `SQLRegistryBase._set_artifact_storage_spec` with no caller override:
the save path `{table}/{team}/{name}/v-{version}`. -/
def defaultSavePath (reg : RegistryState) (card : RCard) : String :=
  reg.tableName ++ "/" ++ card.team ++ "/" ++ card.name ++ "/v-" ++
    (match card.version with | some v => renderSemVer v | none => "None")

/-- Embeds `ArtifactCard.create_registry_record`: the metadata row dumped from the
card after version and uid assignment. -/
def createRegistryRecord (card : RCard) : RegRecord :=
  { uid := uidStr card.uid
    name := card.name
    team := card.team
    version := match card.version with | some v => v | none => ⟨0, 0, 0, []⟩ }

/-- Embeds `SQLRegistryBase.register_card`: validate, assign version and uid, set
the storage spec, save artifacts, and commit the record only after the saver
returns successfully.  `saver` embeds `save_card_artifacts`; an exception
there propagates and the record store is left untouched. -/
def registerCard (saver : RCard → Except String RCard) (freshUid : String)
    (reg : RegistryState) (card : RCard) (vt : VersionType) :
    Except RegErr RCard × RegistryState :=
  match validateCardType reg card with
  | .error e => (.error e, reg)
  | .ok _ =>
    let card1 := setCardUidVersion reg card vt freshUid
    let reg1 := { reg with storageSpec := some (defaultSavePath reg card1) }
    match saver card1 with
    | .error msg => (.error (.artifactSaveError msg), reg1)
    | .ok card2 =>
      let record := createRegistryRecord card2
      (.ok card2, { reg1 with store := (reg1.tableName, record) :: reg1.store })

/-- C1: if `save_card_artifacts` raises during `register_card`, the error
propagates, the record store is unchanged, and `exists(table, uid)` is
unchanged for every uid — in particular it stays `False` for the attempted
uid, i.e. `add_and_commit` is never invoked. -/
theorem registerCard_orphan_safety (saver : RCard → Except String RCard)
    (freshUid : String) (reg : RegistryState) (card : RCard) (vt : VersionType)
    (msg : String)
    (hvalid : validateCardType reg card = .ok ())
    (hsave : saver (setCardUidVersion reg card vt freshUid) = .error msg) :
    (registerCard saver freshUid reg card vt).1 = .error (.artifactSaveError msg) ∧
      (registerCard saver freshUid reg card vt).2.store = reg.store ∧
      ∀ uid table, checkUid (registerCard saver freshUid reg card vt).2.store uid table =
        checkUid reg.store uid table := by
  have hrun : registerCard saver freshUid reg card vt =
      (.error (.artifactSaveError msg),
        { reg with storageSpec := some (defaultSavePath reg (setCardUidVersion reg card vt freshUid)) }) := by
    unfold registerCard
    rw [hvalid]
    show (match saver (setCardUidVersion reg card vt freshUid) with
      | Except.error m =>
        ((Except.error (RegErr.artifactSaveError m) : Except RegErr RCard),
          { reg with storageSpec := some (defaultSavePath reg (setCardUidVersion reg card vt freshUid)) })
      | Except.ok card2 =>
        (Except.ok card2,
          { reg with storageSpec := some (defaultSavePath reg (setCardUidVersion reg card vt freshUid)),
                     store := (reg.tableName, createRegistryRecord card2) :: reg.store })) = _
    rw [hsave]
  rw [hrun]
  exact ⟨rfl, rfl, fun uid table => rfl⟩

/-- Witness for C1: a model registry with an empty store, a fresh ModelCard
and a saver that always raises; after the failed registration the attempted
uid does not exist in the table. -/
theorem registerCard_orphan_safety_witness :
    validateCardType ⟨"OPSML_MODEL_REGISTRY", .model, [], none⟩
        ⟨.model, "m", "t", none, none⟩ = .ok () ∧
      (fun _ => (.error "storage write failed" : Except String RCard))
          (setCardUidVersion ⟨"OPSML_MODEL_REGISTRY", .model, [], none⟩
            ⟨.model, "m", "t", none, none⟩ .minor "uid-123") =
        .error "storage write failed" ∧
      (registerCard (fun _ => .error "storage write failed") "uid-123"
          ⟨"OPSML_MODEL_REGISTRY", .model, [], none⟩
          ⟨.model, "m", "t", none, none⟩ .minor).1 =
        .error (.artifactSaveError "storage write failed") ∧
      checkUid (registerCard (fun _ => .error "storage write failed") "uid-123"
          ⟨"OPSML_MODEL_REGISTRY", .model, [], none⟩
          ⟨.model, "m", "t", none, none⟩ .minor).2.store
        "uid-123" "OPSML_MODEL_REGISTRY" = false := by
  have h := registerCard_orphan_safety (fun _ => .error "storage write failed")
    "uid-123" ⟨"OPSML_MODEL_REGISTRY", .model, [], none⟩
    ⟨.model, "m", "t", none, none⟩ .minor "storage write failed" rfl rfl
  refine ⟨rfl, rfl, h.1, ?_⟩
  rw [h.2.2 "uid-123" "OPSML_MODEL_REGISTRY"]
  rfl

/-! ## Claims C4 and C9: the card artifact saver family

`opsml/registry/cards/card_saver.py`.  Each saver owns a fresh `uris`
dictionary and a storage client; `save_artifact_to_storage` (whose module is
not among the sources at hand) is modelled from the spec codec contract as a
deterministic write returning the storage path resolved from the spec.  The
write log records every storage write with its uri slot name. -/

/-- The uri slots of `UriNames` used by the savers. -/
def trainedModelUriKey : String := "trained_model_uri"

/-- The uri slots of `UriNames` used by the savers. -/
def sampleDataUriKey : String := "sample_data_uri"

/-- The uri slots of `UriNames` used by the savers. -/
def onnxModelUriKey : String := "onnx_model_uri"

/-- The uri slots of `UriNames` used by the savers. -/
def modelMetadataUriKey : String := "model_metadata_uri"

/-- The uri slots of `UriNames` used by the savers. -/
def modelcardUriKey : String := "modelcard_uri"

/-- The uri slots of `UriNames` used by the savers. -/
def preprocessorUriKey : String := "preprocessor_uri"

/-- The `metadata.uris` field of a ModelCard. -/
structure ModelUris where
  trainedModelUri : Option String
  sampleDataUri : Option String
  onnxModelUri : Option String
  modelMetadataUri : Option String
  modelcardUri : Option String
  preprocessorUri : Option String
deriving DecidableEq, Repr

/-- The ModelCard fields read and written by `ModelCardArtifactSaver`:
identity, the card's storage directory `card.uri`, the populated uri map,
the onnx flag, the interface flavour, and the mutable metadata fields the
saver assigns (`data_schema`, the loaded onnx model). -/
structure MCard where
  name : String
  team : String
  uri : String
  uris : ModelUris
  toOnnx : Bool
  isHuggingFace : Bool
  dataSchema : Option Nat
  onnxModelLoaded : Bool
deriving DecidableEq, Repr

/-- Saver state: the card under saving, the saver's own `self.uris`
dictionary (insertion-ordered association list), the log of storage writes
as (uri slot, path) pairs, and the number of onnx model conversions run. -/
structure SaverState where
  card : MCard
  uris : List (String × String)
  writes : List (String × String)
  conversions : Nat
deriving DecidableEq, Repr

/-- Python dict update: replace the value under an existing key, append a
new key otherwise. -/
def dictSet (l : List (String × String)) (k v : String) : List (String × String) :=
  if (l.lookup k).isSome then l.map (fun e => if e.1 = k then (k, v) else e)
  else l ++ [(k, v)]

/-- Embeds `CardArtifactSaver._resolve_dir`: the directory of a stored uri,
relative to the storage client's base path (taken as the registry root). -/
def resolveDir (uri : String) : String :=
  String.intercalate "/" ((uri.splitOn "/").dropLast)

/-- Embeds `CardArtifactSaver._get_storage_spec`: write into the card's own
directory when the slot has no uri yet, otherwise into the directory of the
existing uri so updates overwrite the same logical slot. -/
def getStorageSpec (card : MCard) (filename : String) (uri : Option String) : String :=
  match uri with
  | none => card.uri ++ "/" ++ filename
  | some u => resolveDir u ++ "/" ++ filename

/-- Modelled from the spec: `save_artifact_to_storage` is a deterministic
write; the resulting uri is the path resolved from the storage spec.  The
write is appended to the log under its uri slot. -/
def saveArtifactToStorage (st : SaverState) (slot : String) (path : String) : SaverState :=
  { st with writes := st.writes ++ [(slot, path)] }

/-- Embeds `ModelCardArtifactSaver._save_trained_model`: write the trained model
(uri recorded except for HuggingFace models, which record it during model
saving). -/
def saveTrainedModel (st : SaverState) : SaverState :=
  let path := getStorageSpec st.card "trained-model" (st.uris.lookup trainedModelUriKey)
  let st := saveArtifactToStorage st trainedModelUriKey path
  if st.card.isHuggingFace then st
  else { st with uris := dictSet st.uris trainedModelUriKey path }

/-- Embeds `ModelCardArtifactSaver._save_sample_data`: write the single-record
sample data and record its uri. -/
def saveSampleData (st : SaverState) : SaverState :=
  let path := getStorageSpec st.card "sample-model-data" (st.uris.lookup sampleDataUriKey)
  let st := saveArtifactToStorage st sampleDataUriKey path
  { st with uris := dictSet st.uris sampleDataUriKey path }

/-- Embeds `ModelCardArtifactSaver._create_metadata`: without onnx conversion only
the data schema is set; HuggingFace models skip conversion here; otherwise
the model is converted (counted), the onnx blob written and its uri
recorded, and the onnx model attached to the card interface. -/
def createMetadata (st : SaverState) : SaverState :=
  if !st.card.toOnnx then
    { st with card := { st.card with dataSchema := some 1 } }
  else if st.card.isHuggingFace then st
  else
    let st := { st with
      conversions := st.conversions + 1
      card := { st.card with dataSchema := some 2 } }
    let path := getStorageSpec st.card "onnx/model.onnx" (st.uris.lookup onnxModelUriKey)
    let st := saveArtifactToStorage st onnxModelUriKey path
    { st with
        uris := dictSet st.uris onnxModelUriKey path
        card := { st.card with onnxModelLoaded := true } }

/-- Embeds `ModelCardArtifactSaver._save_model_metadata`: save the trained model,
the sample data, run metadata creation (onnx conversion), then write the
model metadata json and record its uri. -/
def saveModelMetadata (st : SaverState) : SaverState :=
  let st := saveTrainedModel st
  let st := saveSampleData st
  let st := createMetadata st
  let path := getStorageSpec st.card "model-metadata" (st.uris.lookup modelMetadataUriKey)
  let st := saveArtifactToStorage st modelMetadataUriKey path
  { st with uris := dictSet st.uris modelMetadataUriKey path }

/-- Embeds `ModelCardArtifactSaver._save_modelcard`: write the exclusion-filtered
card dump and record its uri. -/
def saveModelcard (st : SaverState) : SaverState :=
  let path := getStorageSpec st.card "modelcard" (st.uris.lookup modelcardUriKey)
  let st := saveArtifactToStorage st modelcardUriKey path
  { st with uris := dictSet st.uris modelcardUriKey path }

/-- Embeds `ModelCardArtifactSaver.save_artifacts` (`card_saver.py` lines 412-420):
run the heavy metadata pipeline only when `metadata.uris.model_metadata_uri`
is unset, then always save the modelcard blob, and return the card with the
saver's uri dictionary. -/
def modelSaveArtifacts (card : MCard) : SaverState :=
  let st : SaverState := ⟨card, [], [], 0⟩
  let st := if card.uris.modelMetadataUri = none then saveModelMetadata st else st
  saveModelcard st

/-- C4: when `metadata.uris.model_metadata_uri` is already populated,
`save_artifacts` skips the trained-model, sample-data, onnx and
model-metadata saves and runs no model conversion: the card is unchanged,
the only write and only uri entry is the modelcard slot, and a second call
on the returned card produces the identical uri map. -/
theorem modelSaveArtifacts_skip_when_populated (card : MCard) (u : String)
    (hpop : card.uris.modelMetadataUri = some u) :
    (modelSaveArtifacts card).card = card ∧
      (modelSaveArtifacts card).uris = [(modelcardUriKey, card.uri ++ "/" ++ "modelcard")] ∧
      (modelSaveArtifacts card).writes =
        [(modelcardUriKey, card.uri ++ "/" ++ "modelcard")] ∧
      (modelSaveArtifacts card).conversions = 0 ∧
      (modelSaveArtifacts (modelSaveArtifacts card).card).uris =
        (modelSaveArtifacts card).uris := by
  have hne : card.uris.modelMetadataUri ≠ none := by rw [hpop]; exact Option.some_ne_none u
  have hrun : modelSaveArtifacts card = saveModelcard ⟨card, [], [], 0⟩ := by
    unfold modelSaveArtifacts
    show saveModelcard (if card.uris.modelMetadataUri = none then
        saveModelMetadata ⟨card, [], [], 0⟩ else ⟨card, [], [], 0⟩) =
      saveModelcard ⟨card, [], [], 0⟩
    rw [if_neg hne]
  rw [hrun]
  have hmc : saveModelcard ⟨card, [], [], 0⟩ =
      ⟨card, [(modelcardUriKey, card.uri ++ "/" ++ "modelcard")],
        [(modelcardUriKey, card.uri ++ "/" ++ "modelcard")], 0⟩ := rfl
  rw [hmc]
  refine ⟨rfl, rfl, rfl, rfl, ?_⟩
  have hrun2 : modelSaveArtifacts card = saveModelcard ⟨card, [], [], 0⟩ := hrun
  rw [hrun2, hmc]

/-- Witness for C4 at a concrete registered ModelCard. -/
theorem modelSaveArtifacts_skip_when_populated_witness :
    (⟨"m", "t", "OPSML_MODEL_REGISTRY/t/m/v-1.0.0",
        ⟨some "a", some "b", some "c", some "d", some "e", none⟩,
        true, false, none, false⟩ : MCard).uris.modelMetadataUri = some "d" ∧
      (modelSaveArtifacts
          ⟨"m", "t", "OPSML_MODEL_REGISTRY/t/m/v-1.0.0",
            ⟨some "a", some "b", some "c", some "d", some "e", none⟩,
            true, false, none, false⟩).uris =
        [(modelcardUriKey, "OPSML_MODEL_REGISTRY/t/m/v-1.0.0/modelcard")] ∧
      (modelSaveArtifacts
          ⟨"m", "t", "OPSML_MODEL_REGISTRY/t/m/v-1.0.0",
            ⟨some "a", some "b", some "c", some "d", some "e", none⟩,
            true, false, none, false⟩).conversions = 0 := by
  have h := modelSaveArtifacts_skip_when_populated
    ⟨"m", "t", "OPSML_MODEL_REGISTRY/t/m/v-1.0.0",
      ⟨some "a", some "b", some "c", some "d", some "e", none⟩,
      true, false, none, false⟩ "d" rfl
  exact ⟨rfl, h.2.1, h.2.2.2.1⟩

/-! ## Claim C9: result shape of `save_artifacts` across card variants

`save_card_artifacts` (`card_saver.py` lines 533-554) scans the saver
subclasses, validates against the card type and calls `save_artifacts`.  The
base class declares `save_artifacts(self) -> Tuple[Any, Any]`; five savers
return `(self.card, self.uris)`, while `ProjectCardArtifactSaver` (lines
520-530) returns `self.card` alone. -/

/-- The DataCard fields driving `DataCardArtifactSaver`: the storage
directory and which optional payloads are present. -/
structure DCard where
  uri : String
  hasData : Bool
  hasProfile : Bool
deriving DecidableEq, Repr

/-- The RunCard fields driving `RunCardArtifactSaver`: the storage
directories, the in-memory artifacts by name, and the uris of artifacts
already saved. -/
structure RunCard where
  uri : String
  artifactUri : String
  artifacts : List String
  artifactUris : List (String × String)
deriving DecidableEq, Repr

/-- A card with no saver-relevant payload beyond its storage directory
(PipelineCard, ProjectCard, AuditCard). -/
structure PlainCard where
  uri : String
deriving DecidableEq, Repr

/-- The card variants dispatched by `save_card_artifacts`. -/
inductive AnyCard where
  | data (c : DCard)
  | model (c : MCard)
  | run (c : RunCard)
  | pipeline (c : PlainCard)
  | project (c : PlainCard)
  | audit (c : PlainCard)
deriving DecidableEq, Repr

/-- The value returned by a saver's `save_artifacts`: either the
`(card, uri_map)` pair of the base-class contract, or a bare card. -/
inductive SaveResult where
  | pair (card : AnyCard) (uris : List (String × String))
  | cardOnly (card : AnyCard)
deriving DecidableEq, Repr

/-- Embeds `DataCardArtifactSaver.save_artifacts`: save the data, the profile and
its html rendering when present, then the datacard blob, and return the
card with the uri map. -/
def dataSaveArtifacts (c : DCard) : List (String × String) :=
  let uris : List (String × String) := []
  let uris := if c.hasData then dictSet uris "data_uri" (c.uri ++ "/data") else uris
  let uris := if c.hasProfile then
      dictSet (dictSet uris "profile_uri" (c.uri ++ "/data-profile"))
        "profile_html_uri" (c.uri ++ "/data-profile-html")
    else uris
  dictSet uris "datacard_uri" (c.uri ++ "/datacard")

/-- Embeds `RunCardArtifactSaver.save_artifacts`: save the artifacts not already
recorded in `artifact_uris` and the runcard blob, and return the card with
the uri map (artifact uris flattened to one slot per artifact name). -/
def runSaveArtifacts (c : RunCard) : List (String × String) :=
  let uris := (c.artifacts.filter
      (fun n => (c.artifactUris.lookup n).isNone)).map
    (fun n => ("artifact_uris/" ++ n, c.artifactUri ++ "/" ++ n))
  dictSet uris "runcard_uri" (c.uri ++ "/runcard")

/-- Embeds `AuditCardArtifactSaver.save_artifacts`: save the audit blob and return
the card with the uri map. -/
def auditSaveArtifacts (c : PlainCard) : List (String × String) :=
  dictSet [] "audit_uri" (c.uri ++ "/audit")

/-- Embeds `save_card_artifacts`: dispatch on the card variant and return whatever
the matched saver's `save_artifacts` returns.  Five savers return the
`(card, uris)` pair; `ProjectCardArtifactSaver.save_artifacts` returns
`self.card` alone. -/
def saveCardArtifacts : AnyCard → SaveResult
  | .data c => .pair (.data c) (dataSaveArtifacts c)
  | .model c =>
    let st := modelSaveArtifacts c
    .pair (.model st.card) st.uris
  | .run c => .pair (.run c) (runSaveArtifacts c)
  | .pipeline c => .pair (.pipeline c) []
  | .project c => .cardOnly (.project c)
  | .audit c => .pair (.audit c) (auditSaveArtifacts c)

/-- C9: the ProjectCard saver breaks the uniform result shape — for every
ProjectCard, `save_artifacts` returns the bare card instead of the
`(card, uri_map)` pair that the base class declares and that every other
variant returns. -/
theorem saveCardArtifacts_project_shape :
    ∀ (p : PlainCard) (d : DCard) (m : MCard) (r : RunCard) (q a : PlainCard),
      saveCardArtifacts (.project p) = .cardOnly (.project p) ∧
      saveCardArtifacts (.data d) = .pair (.data d) (dataSaveArtifacts d) ∧
      saveCardArtifacts (.model m) =
        .pair (.model (modelSaveArtifacts m).card) (modelSaveArtifacts m).uris ∧
      saveCardArtifacts (.run r) = .pair (.run r) (runSaveArtifacts r) ∧
      saveCardArtifacts (.pipeline q) = .pair (.pipeline q) [] ∧
      saveCardArtifacts (.audit a) = .pair (.audit a) (auditSaveArtifacts a) := by
  intro p d m r q a
  exact ⟨rfl, rfl, rfl, rfl, rfl, rfl⟩

/-! ## Claim C6: `ModelCardLoader.load_model` on a missing trained-model blob

`opsml/registry/cards/card_loader.py` lines 177-222.  The storage client
(`opsml/registry/storage/client.py`, not among the sources at hand) is
modelled from the spec storage contract: `get(remote_path, local_path)`
downloads an existing blob and fails on a missing one, `exists(remote_path)`
tests existence.  The loader's optional artifacts (preprocessor, sample
data) check existence and silently return when missing; `_load_model`
performs the download of the required trained model unconditionally. -/

/-- The loader-facing fields of a ModelCard interface: the payloads that the
load methods populate, as opaque tokens. -/
structure ModelInterfaceState where
  model : Option Nat
  preprocessor : Option Nat
  sampleData : Option Nat
deriving DecidableEq, Repr

/-- The card fields `ModelCardLoader` reads: the storage directory
`card.uri`, the interface state, and the interface's storage suffix. -/
structure LoaderCard where
  uri : String
  interface : ModelInterfaceState
  suffix : String
deriving DecidableEq, Repr

/-- The remote storage contents: remote path to blob token. -/
structure StorageCtx where
  existing : List (String × Nat)
deriving DecidableEq, Repr

/-- Loader-side errors.  `corruptRecord` embeds the spec's
`CorruptRecordError` so the code's behaviour can be compared against it; the
embedded loader never produces it. -/
inductive LoadErr where
  | fileNotFound (path : String)
  | corruptRecord
deriving DecidableEq, Repr

/-- Embeds `Path(rpath, object_path).with_suffix(suffix)`. -/
def remotePath (dir objectPath suffix : String) : String :=
  dir ++ "/" ++ objectPath ++ suffix

/-- Embeds `storage_client.exists`. -/
def storageExists (ctx : StorageCtx) (rpath : String) : Bool :=
  (ctx.existing.lookup rpath).isSome

/-- Modelled from the spec: `storage_client.get` downloads the blob at a
remote path; a missing path is a failure of the storage backend. -/
def storageGet (ctx : StorageCtx) (rpath : String) : Except LoadErr Nat :=
  match ctx.existing.lookup rpath with
  | some payload => .ok payload
  | none => .error (.fileNotFound rpath)

/-- Embeds `CardLoader.download`: fetch `card.uri / object_path + suffix`. -/
def downloadObject (ctx : StorageCtx) (card : LoaderCard) (objectPath suffix : String) :
    Except LoadErr Nat :=
  storageGet ctx (remotePath card.uri objectPath suffix)

/-- Embeds `ModelCardLoader._load_model`: no-op when the model is already loaded,
otherwise download the trained model unconditionally (no existence check)
and attach it to the interface. -/
def loadModelFile (ctx : StorageCtx) (card : LoaderCard) :
    Except LoadErr ModelInterfaceState :=
  if card.interface.model.isSome then .ok card.interface
  else do
    let payload ← downloadObject ctx card "trained-model" card.suffix
    .ok { card.interface with model := some payload }

/-- Embeds `ModelCardLoader._load_preprocessor`: silently return when the blob does
not exist (optional artifact), otherwise download and attach. -/
def loadPreprocessorFile (ctx : StorageCtx) (card : LoaderCard)
    (st : ModelInterfaceState) : Except LoadErr ModelInterfaceState :=
  if !storageExists ctx (remotePath card.uri "preprocessor" card.suffix) then .ok st
  else do
    let payload ← storageGet ctx (remotePath card.uri "preprocessor" card.suffix)
    .ok { st with preprocessor := some payload }

/-- Embeds `ModelCardLoader._load_sample_data`: sample data is stored with the
joblib suffix; silently return when absent (optional artifact). -/
def loadSampleDataFile (ctx : StorageCtx) (card : LoaderCard)
    (st : ModelInterfaceState) : Except LoadErr ModelInterfaceState :=
  if !storageExists ctx (remotePath card.uri "sample-model-data" ".joblib") then .ok st
  else do
    let payload ← storageGet ctx (remotePath card.uri "sample-model-data" ".joblib")
    .ok { st with sampleData := some payload }

/-- Embeds `ModelCardLoader.load_model` (`card_loader.py` lines 214-222): load the
trained model, then the preprocessor, then the sample data; an error in any
step propagates. -/
def loadModel (ctx : StorageCtx) (card : LoaderCard) :
    Except LoadErr ModelInterfaceState := do
  let st1 ← loadModelFile ctx card
  let st2 ← loadPreprocessorFile ctx card st1
  loadSampleDataFile ctx card st2

/-- Counterexample to C6 as stated: with no trained-model blob in storage and
an unloaded model, `load_model` surfaces the storage backend's
file-not-found error from the unconditional download — it raises no
`CorruptRecordError` (no such error exists in the code). -/
theorem loadModel_missing_blob_counterexample :
    loadModel ⟨[]⟩ ⟨"model-dir", ⟨none, none, none⟩, ".joblib"⟩ =
        .error (.fileNotFound "model-dir/trained-model.joblib") ∧
      loadModel ⟨[]⟩ ⟨"model-dir", ⟨none, none, none⟩, ".joblib"⟩ ≠
        .error .corruptRecord := by
  constructor
  · rfl
  · intro h
    rw [show loadModel ⟨[]⟩ ⟨"model-dir", ⟨none, none, none⟩, ".joblib"⟩ =
        .error (.fileNotFound "model-dir/trained-model.joblib") from rfl] at h
    injection h with h2
    exact LoadErr.noConfusion h2

/-- C6 amended: whenever the trained-model blob is absent and the model is
not yet loaded, `load_model` fails with the storage backend's file-not-found
error for the trained-model path — it does not silently leave the field
empty, and it does not raise a dedicated corrupt-record error. -/
theorem loadModel_missing_blob_error (ctx : StorageCtx) (card : LoaderCard)
    (hnone : card.interface.model = none)
    (hmissing : storageExists ctx (remotePath card.uri "trained-model" card.suffix) = false) :
    loadModel ctx card =
      .error (.fileNotFound (remotePath card.uri "trained-model" card.suffix)) := by
  have hlookup : ctx.existing.lookup (remotePath card.uri "trained-model" card.suffix) = none := by
    unfold storageExists at hmissing
    exact Option.not_isSome_iff_eq_none.mp (by simp [hmissing])
  have hfile : loadModelFile ctx card =
      .error (.fileNotFound (remotePath card.uri "trained-model" card.suffix)) := by
    unfold loadModelFile
    rw [hnone]
    simp only [Option.isSome_none, Bool.false_eq_true, if_false]
    unfold downloadObject storageGet
    rw [hlookup]
    rfl
  unfold loadModel
  rw [hfile]
  rfl

/-- Witness for the amended C6 at a concrete card whose storage holds only
unrelated blobs. -/
theorem loadModel_missing_blob_error_witness :
    ((⟨"d", ⟨none, none, none⟩, ".joblib"⟩ : LoaderCard).interface.model = none) ∧
      storageExists ⟨[("other/blob", 7)]⟩
        (remotePath "d" "trained-model" ".joblib") = false ∧
      loadModel ⟨[("other/blob", 7)]⟩ ⟨"d", ⟨none, none, none⟩, ".joblib"⟩ =
        .error (.fileNotFound "d/trained-model.joblib") :=
  ⟨rfl, rfl,
    loadModel_missing_blob_error ⟨[("other/blob", 7)]⟩
      ⟨"d", ⟨none, none, none⟩, ".joblib"⟩ rfl rfl⟩

/-! ## Claim C5: `ModelCard._get_one_sample`

`opsml/registry/cards/model.py` lines 101-121: the `sample_input_data`
validator slices non-dict inputs (pandas, polars converted to pandas, numpy)
to `input_data[0:1]` and reduces a dict of arrays to the `[0:1]` slice of
every entry. -/

/-- A ModelCard sample input: a dataframe, a polars frame, a numpy array, or
a dict of arrays.  Rows and elements are opaque tokens. -/
inductive SampleData where
  | pandas (rows : List Nat)
  | polars (rows : List Nat)
  | numpy (rows : List Nat)
  | dictOfArrays (entries : List (String × List Nat))
deriving DecidableEq, Repr

/-- Embeds `ModelCard._get_one_sample`: `None` passes through; non-dict inputs are
sliced to their first row (polars is converted to pandas first); dict inputs
are sliced entry-wise. -/
def getOneSample : Option SampleData → Option SampleData
  | none => none
  | some (.pandas rows) => some (.pandas (rows.take 1))
  | some (.polars rows) => some (.pandas (rows.take 1))
  | some (.numpy rows) => some (.numpy (rows.take 1))
  | some (.dictOfArrays entries) =>
    some (.dictOfArrays (entries.map (fun e => (e.1, e.2.take 1))))

/-- Does the sample carry at least one record (batch size at least 1)? -/
def hasRecords : SampleData → Bool
  | .pandas rows => !rows.isEmpty
  | .polars rows => !rows.isEmpty
  | .numpy rows => !rows.isEmpty
  | .dictOfArrays entries => !entries.isEmpty && entries.all (fun e => !e.2.isEmpty)

/-- The number of records a sample holds: row count for frames and arrays,
the largest entry length for dict inputs. -/
def recordCount : SampleData → Nat
  | .pandas rows => rows.length
  | .polars rows => rows.length
  | .numpy rows => rows.length
  | .dictOfArrays entries => (entries.map (fun e => e.2.length)).foldr Nat.max 0

/-- The spec's words for the reduction: keep exactly the first row (a polars
frame becomes a pandas frame), or the first element of every dict entry;
undefined on an empty batch. -/
def firstRecordOnly : SampleData → Option SampleData
  | .pandas (r :: _) => some (.pandas [r])
  | .polars (r :: _) => some (.pandas [r])
  | .numpy (r :: _) => some (.numpy [r])
  | .dictOfArrays entries =>
    (entries.mapM (fun (e : String × List Nat) =>
      e.2.head?.map (fun h => (e.1, [h])))).map .dictOfArrays
  | _ => none

/-- Helper: on entries with non-empty arrays, taking heads entry-wise agrees
with taking the `[0:1]` slice entry-wise. -/
theorem mapM_head_take (entries : List (String × List Nat))
    (hall : ∀ x ∈ entries, x.2 ≠ []) :
    entries.mapM (fun (e : String × List Nat) =>
        e.2.head?.map (fun h => (e.1, [h]))) =
      some (entries.map (fun e => (e.1, e.2.take 1))) := by
  induction entries with
  | nil => rfl
  | cons e es ih =>
    obtain ⟨v, vs, hv⟩ : ∃ v vs, e.2 = v :: vs := by
      cases hv : e.2 with
      | nil => exact absurd hv (hall e (List.mem_cons_self e es))
      | cons v vs => exact ⟨v, vs, rfl⟩
    rw [List.mapM_cons, List.map_cons, hv,
      ih (fun x hx => hall x (List.mem_cons_of_mem e hx))]
    rfl

/-- Helper: the fold of `max` over a non-empty list of ones is one. -/
theorem foldr_max_ones (l : List Nat) (h : ∀ x ∈ l, x = 1) (hne : l ≠ []) :
    l.foldr Nat.max 0 = 1 := by
  induction l with
  | nil => exact absurd rfl hne
  | cons a as ih =>
    rw [List.foldr_cons]
    have ha : a = 1 := h a (List.mem_cons_self a as)
    cases as with
    | nil => simp [ha]
    | cons b bs =>
      rw [ih (fun x hx => h x (List.mem_cons_of_mem a hx)) (by simp)]
      simp [ha]

/-- C5: on any sample with batch size at least 1 (every variant, any number
of rows), `_get_one_sample` keeps exactly the first record: it agrees with
the spec-side `firstRecordOnly` reduction and the persisted sample holds
exactly one record. -/
theorem getOneSample_single_record (d : SampleData) (hne : hasRecords d = true) :
    getOneSample (some d) = firstRecordOnly d ∧
      ∀ d2, getOneSample (some d) = some d2 → recordCount d2 = 1 := by
  cases d with
  | pandas rows =>
    cases rows with
    | nil => simp [hasRecords] at hne
    | cons r rest =>
      refine ⟨rfl, ?_⟩
      intro d2 h2
      injection h2 with h3
      rw [← h3]
      rfl
  | polars rows =>
    cases rows with
    | nil => simp [hasRecords] at hne
    | cons r rest =>
      refine ⟨rfl, ?_⟩
      intro d2 h2
      injection h2 with h3
      rw [← h3]
      rfl
  | numpy rows =>
    cases rows with
    | nil => simp [hasRecords] at hne
    | cons r rest =>
      refine ⟨rfl, ?_⟩
      intro d2 h2
      injection h2 with h3
      rw [← h3]
      rfl
  | dictOfArrays entries =>
    simp only [hasRecords, Bool.and_eq_true, List.all_eq_true] at hne
    obtain ⟨hnempty, hall⟩ := hne
    have hall2 : ∀ x ∈ entries, x.2 ≠ [] := by
      intro x hx
      have := hall x hx
      simpa using this
    constructor
    · show (some (SampleData.dictOfArrays (entries.map (fun e => (e.1, e.2.take 1)))) :
          Option SampleData) =
        Option.map SampleData.dictOfArrays
          (entries.mapM (fun (e : String × List Nat) =>
            e.2.head?.map (fun h => (e.1, [h]))))
      rw [mapM_head_take entries hall2]
      rfl
    · intro d2 h2
      injection h2 with h3
      rw [← h3]
      show ((entries.map (fun e => (e.1, e.2.take 1))).map
        (fun e => e.2.length)).foldr Nat.max 0 = 1
      refine foldr_max_ones _ ?_ ?_
      · intro x hx
        rcases List.mem_map.mp hx with ⟨y, hy, hxy⟩
        rcases List.mem_map.mp hy with ⟨z, hz, hzy⟩
        rw [← hxy, ← hzy]
        obtain ⟨v, vs, hv⟩ : ∃ v vs, z.2 = v :: vs := by
          cases hv : z.2 with
          | nil => exact absurd hv (hall2 z hz)
          | cons v vs => exact ⟨v, vs, rfl⟩
        simp [hv]
      · intro hmap
        rw [List.map_eq_nil_iff, List.map_eq_nil_iff] at hmap
        rw [hmap] at hnempty
        simp at hnempty

/-- Witness for C5: a 3-row dataframe and a two-entry dict of arrays both
persist exactly one record — the first. -/
theorem getOneSample_single_record_witness :
    hasRecords (.pandas [10, 20, 30]) = true ∧
      getOneSample (some (.pandas [10, 20, 30])) = some (.pandas [10]) ∧
      recordCount (.pandas [10]) = 1 ∧
      hasRecords (.dictOfArrays [("x", [1, 2, 3]), ("y", [4, 5])]) = true ∧
      getOneSample (some (.dictOfArrays [("x", [1, 2, 3]), ("y", [4, 5])])) =
        some (.dictOfArrays [("x", [1]), ("y", [4])]) ∧
      recordCount (.dictOfArrays [("x", [1]), ("y", [4])]) = 1 := by
  refine ⟨rfl, rfl, ?_, rfl, rfl, ?_⟩
  · exact (getOneSample_single_record (.pandas [10, 20, 30]) rfl).2 (.pandas [10]) rfl
  · exact (getOneSample_single_record
      (.dictOfArrays [("x", [1, 2, 3]), ("y", [4, 5])]) rfl).2
      (.dictOfArrays [("x", [1]), ("y", [4])]) rfl
